import Mathlib

/-!
# Verification of the CASM project basis-set build-and-cache subsystem

Shallow embedding of `src/casm/project/bset/_BsetData.py` and
`src/casm/project/text_io.py` (prisms-center/CASMcode_project).

JSON-compatible Python values are modelled by `JValue`; the on-disk state of a
basis-set directory is modelled by `FS`, an association list from (directory
relative) path strings to file contents.  Printing (`print`, `quiet`,
`verbose`), gzip encoding and directory creation (`mkdir`) have no observable
effect on the modelled state and are omitted.
-/

set_option autoImplicit false

/-- JSON-compatible Python values (`None`, `bool`, numbers, `str`, `list`,
`dict`).  Numbers are modelled as integers; no claim depends on numerics. -/
inductive JValue where
  | null
  | bool (b : Bool)
  | num (n : Int)
  | str (s : String)
  | arr (xs : List JValue)
  | obj (kvs : List (String × JValue))

/-- A directory of files: association list from path to JSON contents.
The first binding for a path wins (`FS.write` conses a fresh binding after
deleting older ones). -/
def FS : Type := List (String × JValue)

namespace FS

/-- Contents of the file at `p`, if it exists. -/
def lookup : FS → String → Option JValue
  | [], _ => none
  | (q, v) :: rest, p => if q = p then some v else lookup rest p

/-- Python `pathlib.Path.exists()` for the modelled directory. -/
def pathExists (fs : FS) (p : String) : Bool :=
  (fs.lookup p).isSome

/-- Python `pathlib.Path.unlink()`: remove the file at `p`. -/
def erase : FS → String → FS
  | [], _ => []
  | (k, v) :: rest, p => if k = p then erase rest p else (k, v) :: erase rest p

/-- Write contents `v` to the file at `p`, replacing any previous contents. -/
def write (fs : FS) (p : String) (v : JValue) : FS :=
  (p, v) :: fs.erase p

@[simp] theorem lookup_nil (p : String) : lookup [] p = none := rfl

theorem lookup_erase (fs : FS) (p q : String) :
    (fs.erase p).lookup q = if q = p then none else fs.lookup q := by
  induction fs with
  | nil =>
    simp only [erase, lookup_nil]
    split <;> rfl
  | cons e rest ih =>
    obtain ⟨k, v⟩ := e
    simp only [erase]
    by_cases hkp : k = p
    · subst hkp
      rw [if_pos rfl, ih]
      by_cases hq : q = k
      · subst hq
        rw [if_pos rfl, if_pos rfl]
      · rw [if_neg hq, if_neg hq]
        simp only [lookup]
        rw [if_neg (fun h => hq h.symm)]
    · rw [if_neg hkp]
      simp only [lookup]
      by_cases hkq : k = q
      · subst hkq
        rw [if_pos rfl, if_neg (fun h => hkp h), if_pos rfl]
      · rw [if_neg hkq, ih, if_neg hkq]

theorem lookup_write (fs : FS) (p q : String) (v : JValue) :
    (fs.write p v).lookup q = if q = p then some v else fs.lookup q := by
  simp only [write, lookup]
  by_cases h : q = p
  · rw [if_pos h.symm, if_pos h]
  · rw [if_neg fun hh => h hh.symm, if_neg h, lookup_erase, if_neg h]

theorem pathExists_iff (fs : FS) (p : String) :
    fs.pathExists p = true ↔ ∃ v, fs.lookup p = some v := by
  simp [pathExists, Option.isSome_iff_exists]

end FS

/-!
## `text_io.read_optional` and `text_io.safe_dump`

From `src/casm/project/text_io.py`.  The `casm.project.json_io` module actually
imported by `_BsetData.py` is not part of the sources here; per the spec (§4.1,
"This primitive is the only way any persisted state in this subsystem is
mutated") it has the same contract, with JSON (de)serialization composed in,
which the `FS` model absorbs by storing `JValue` contents directly.

File-mutating operations return `FS × Option String`; the second component is
`some msg` when the Python code raises an exception, in which case the returned
`FS` reflects exactly the mutations performed before the raise.
-/

/-- Model of `text_io.read_optional` (lines 88-97): return the contents of `path` when
the file exists, else `default`. -/
def read_optional (fs : FS) (path : String) (default : JValue) : JValue :=
  match fs.lookup path with
  | some v => v
  | none => default

/-- Model of `text_io.safe_dump._safe_write` (lines 160-175): fail if the sibling
temporary `path + ".tmp"` exists; otherwise write the data to the temporary,
unlink a pre-existing target, and rename the temporary into place. -/
def safeWrite (data : JValue) (path : String) (fs : FS) : FS × Option String :=
  let tmpPath := path ++ ".tmp"
  if fs.pathExists tmpPath then
    (fs, some ("Error: " ++ tmpPath ++ " already exists"))
  else
    let fs1 := fs.write tmpPath data
    let fs2 := if fs1.pathExists path then fs1.erase path else fs1
    ((fs2.erase tmpPath).write path data, none)

/-- Model of `text_io.safe_dump` (lines 142-187): skip when the target exists and
`force` is false, otherwise delegate to `_safe_write`. -/
def safe_dump (data : JValue) (path : String) (force : Bool) (fs : FS) :
    FS × Option String :=
  if fs.pathExists path then
    if force then safeWrite data path fs
    else (fs, none)
  else safeWrite data path fs

theorem safe_dump_force (data : JValue) (path : String) (fs : FS) :
    safe_dump data path true fs = safeWrite data path fs := by
  unfold safe_dump
  split <;> rfl

theorem safeWrite_tmp_exists (data : JValue) (path : String) (fs : FS)
    (h : fs.pathExists (path ++ ".tmp") = true) :
    safeWrite data path fs =
      (fs, some ("Error: " ++ (path ++ ".tmp") ++ " already exists")) := by
  unfold safeWrite
  simp [h]

theorem safeWrite_ok_snd (data : JValue) (path : String) (fs : FS)
    (h : fs.pathExists (path ++ ".tmp") = false) :
    (safeWrite data path fs).2 = none := by
  unfold safeWrite
  simp [h]

theorem safeWrite_ok_lookup (data : JValue) (path : String) (fs : FS) (q : String)
    (h : fs.pathExists (path ++ ".tmp") = false) :
    ((safeWrite data path fs).1).lookup q =
      if q = path then some data
      else if q = path ++ ".tmp" then none
      else fs.lookup q := by
  unfold safeWrite
  simp only [h, Bool.false_eq_true, if_false]
  rw [FS.lookup_write, FS.lookup_erase]
  by_cases hq : q = path
  · rw [if_pos hq, if_pos hq]
  · rw [if_neg hq, if_neg hq]
    by_cases hq2 : q = path ++ ".tmp"
    · rw [if_pos hq2, if_pos hq2]
    · rw [if_neg hq2, if_neg hq2]
      split
      · rw [FS.lookup_erase, if_neg hq, FS.lookup_write, if_neg hq2]
      · rw [FS.lookup_write, if_neg hq2]

/-!
## Python dict access helpers

`jlookup j k` models `j.get(k)` / `j[k]` key lookup on a dict (first binding
wins; `None` result and missing key are distinguished as in Python).
`jset` models `j[k] = v` (in-place update, insertion order preserved,
new keys appended).
-/

def assocLookup : List (String × JValue) → String → Option JValue
  | [], _ => none
  | (k, v) :: rest, key => if k = key then some v else assocLookup rest key

def assocSet : List (String × JValue) → String → JValue → List (String × JValue)
  | [], key, v => [(key, v)]
  | (k, w) :: rest, key, v =>
    if k = key then (k, v) :: rest else (k, w) :: assocSet rest key v

/-- Dict key lookup (`None` when the key is missing or `j` is not a dict). -/
def jlookup : JValue → String → Option JValue
  | .obj kvs, key => assocLookup kvs key
  | _, _ => none

/-- Python `dict.get(key, default)`. -/
def jget (j : JValue) (key : String) (default : JValue) : JValue :=
  match jlookup j key with
  | some v => v
  | none => default

/-- Python `j[key] = v` on a dict (no-op on non-dicts, which never arise). -/
def jset : JValue → String → JValue → JValue
  | .obj kvs, key, v => .obj (assocSet kvs key v)
  | j, _, _ => j

/-- Elements of a JSON array (`[]` on non-arrays, which never arise here). -/
def jArr : JValue → List JValue
  | .arr xs => xs
  | _ => []

/-- String elements of a JSON array.  The generated-file manifest only ever
stores strings in its lists (see `BsetData.update_generated_files`), so
non-string entries cannot arise; they are dropped. -/
def jStrList (j : JValue) : List String :=
  (jArr j).filterMap (fun x =>
    match x with
    | .str s => some s
    | _ => none)

/-!
## File names inside the basis-set directory

`FS` paths are relative to `BsetData.bset_dir`.  `bspecs.json` is
`proj.dir.bspecs(bset=id)` which resolves inside the same directory (see the
directory layout in the `BsetData` docstring, lines 179-199).
-/

def bspecsPath : String := "bspecs.json"

def writerParamsPath : String := "writer_params.json"

def metaPath : String := "meta.json"

def genFilesPath : String := "generated_files.json"

def equivInfoPath : String := "equivalents_info.json"

/-!
## `BsetData` in-memory state

`clex_basis_specs` holds a Python value that is either `None`, a
`ClexBasisSpecs` instance, or (assignable in Python, though never produced by
this class) some other object.  `ClexBasisSpecs` itself is an excluded
collaborator (spec §1); it is modelled by the dict produced by its `to_dict`,
with `ClexBasisSpecs.from_dict` inverse to `to_dict` on that payload.
`version` and `linear_function_indices` are arbitrary JSON-compatible Python
values (`JValue.null` models Python `None`). -/
inductive BspecsVal where
  | isNone
  | cbs (d : JValue)
  | other

/-- Model of `isinstance(x, ClexBasisSpecs)` (line 345). -/
def isClexBasisSpecs : BspecsVal → Bool
  | .cbs _ => true
  | _ => false

/-- Model of `ClexBasisSpecs.to_dict()` (line 364); only invoked on `cbs` values. -/
def cbsToDict : BspecsVal → JValue
  | .cbs d => d
  | _ => JValue.null

/-- The mutable attributes of a `BsetData` object (`__init__`, lines 263-293). -/
structure BsetState where
  meta : JValue
  clex_basis_specs : BspecsVal
  version : JValue
  linear_function_indices : JValue

namespace BsetData

/-- Model of `BsetData.load` (lines 303-332): read `meta.json`, `bspecs.json` and
`writer_params.json`; a missing `bspecs.json` clears `clex_basis_specs`,
`linear_function_indices` and `version`, but the unconditional
`writer_params.json` read that follows then overwrites the last two. -/
def load (fs : FS) (st : BsetState) : BsetState :=
  let st1 := { st with meta := read_optional fs metaPath (JValue.obj []) }
  let st2 :=
    match fs.lookup bspecsPath with
    | some data => { st1 with clex_basis_specs := BspecsVal.cbs data }
    | none =>
      { st1 with
        clex_basis_specs := BspecsVal.isNone
        linear_function_indices := JValue.null
        version := JValue.null }
  let data := read_optional fs writerParamsPath (JValue.obj [])
  { st2 with
    linear_function_indices := jget data "linear_function_indices" JValue.null
    version := jget data "version" (JValue.str "v1.basic") }

/-- Errors raised by `BsetData.commit`. -/
inductive CommitErr where
  | notClexBasisSpecs
  | badVersion
  | metaNotDict
  | dumpErr (msg : String)
  | fileNotFound (path : String)

/-- The three `TypeError`s raised by the validation section of
`BsetData.commit` (lines 344-359), before any file is touched. -/
def CommitErr.isValidationErr : CommitErr → Bool
  | .notClexBasisSpecs | .badVersion | .metaNotDict => true
  | _ => false

def jIsObj : JValue → Bool
  | .obj _ => true
  | _ => false

/-- Python `x == s` for a string literal `s` (`False` on non-strings, as for
Python `==` across types). -/
def jIsStr (j : JValue) (s : String) : Bool :=
  match j with
  | .str t => t = s
  | _ => false

def jObjLen : JValue → Nat
  | .obj kvs => kvs.length
  | _ => 0

/-- Model of `BsetData.commit`, `meta.json` section (lines 392-403). -/
def commitMeta (st : BsetState) (fs : FS) : FS × Option CommitErr :=
  if jObjLen st.meta > 0 then
    match safe_dump st.meta metaPath true fs with
    | (fs2, some msg) => (fs2, some (.dumpErr msg))
    | (fs2, none) => (fs2, none)
  else if fs.pathExists metaPath then (fs.erase metaPath, none)
  else (fs, none)

/-- Model of `BsetData.commit`, write section (lines 361-403).  The `elif` branch
(lines 384-390) deleting `bspecs.json` and `writer_params.json` is taken only
when `clex_basis_specs is None`; it unlinks `writer_params.json` without an
existence check, raising `FileNotFoundError` if that file is absent.  Under the
validation in `commit` this branch is unreachable. -/
def commitWrites (st : BsetState) (fs : FS) : FS × Option CommitErr :=
  match st.clex_basis_specs with
  | .isNone =>
    if fs.pathExists bspecsPath then
      let fs1 := fs.erase bspecsPath
      if fs1.pathExists writerParamsPath then
        commitMeta st (fs1.erase writerParamsPath)
      else (fs1, some (.fileNotFound writerParamsPath))
    else commitMeta st fs
  | v =>
    match safe_dump (cbsToDict v) bspecsPath true fs with
    | (fs1, some msg) => (fs1, some (.dumpErr msg))
    | (fs1, none) =>
      let wp := JValue.obj
        [("version", st.version),
         ("linear_function_indices", st.linear_function_indices)]
      match safe_dump wp writerParamsPath true fs1 with
      | (fs2, some msg) => (fs2, some (.dumpErr msg))
      | (fs2, none) => commitMeta st fs2

/-- Model of `BsetData.commit` (lines 334-406): validate `clex_basis_specs`, `version`
and `meta`, raising `TypeError` before any filesystem mutation; then write (or
delete) `bspecs.json`, `writer_params.json` and `meta.json`. -/
def commit (st : BsetState) (fs : FS) : FS × Option CommitErr :=
  if ¬ isClexBasisSpecs st.clex_basis_specs then (fs, some .notClexBasisSpecs)
  else if ¬ jIsStr st.version "v1.basic" then (fs, some .badVersion)
  else if ¬ jIsObj st.meta then (fs, some .metaNotDict)
  else commitWrites st fs

end BsetData

/-!
## `BsetOutputData` accessors (read-only views over generated files)
-/

namespace BsetOutputData

/-- Model of `BsetOutputData.generated_files` (lines 111-125): contents of
`generated_files.json`, or `None`. -/
def generated_files (fs : FS) : Option JValue :=
  fs.lookup genFilesPath

/-- Model of `BsetOutputData.src_path` (lines 127-136): the recorded Clexulator source
path, or `None`.  The manifest writer only stores strings under `src_path`. -/
def src_path (fs : FS) : Option String :=
  match generated_files fs with
  | none => none
  | some gf =>
    match jlookup gf "src_path" with
    | some (JValue.str s) => some s
    | _ => none

/-- Model of `BsetOutputData.local_src_path` (lines 138-147): the recorded local
Clexulator source paths, or `None`. -/
def local_src_path (fs : FS) : Option (List String) :=
  match generated_files fs with
  | none => none
  | some gf =>
    match jlookup gf "local_src_path" with
    | some (JValue.arr xs) => some (jStrList (JValue.arr xs))
    | _ => none

/-- Python runtime errors observable from the `BsetOutputData` accessors. -/
inductive PyErr where
  | attributeError

/-- Python attribute assignment `obj.attr = v` when the class declares `attr`
as a `property`: dispatches to the setter of the property, and raises
`AttributeError` when the property does not define one. -/
def propertySetAttr (hasSetter : Bool) : Except PyErr Unit :=
  if hasSetter then Except.ok () else Except.error PyErr.attributeError

/-- The `equivalents_info` property (lines 96-109) is declared with
`@property` only; no setter is defined for it. -/
def equivalentsInfoHasSetter : Bool := false

/-- Model of `BsetOutputData.equivalents_info` (lines 96-109): the getter body is
`self.equivalents_info = read_optional(self.bset_dir / "equivalents_info.json")`,
an assignment to the read-only property itself; it returns nothing. -/
def equivalents_info (fs : FS) : Except PyErr JValue :=
  let v := read_optional fs equivInfoPath JValue.null
  match propertySetAttr equivalentsInfoHasSetter with
  | Except.error e => Except.error e
  | Except.ok () => Except.ok v

end BsetOutputData

namespace BsetData

/-- The `"all"` list of the manifest, as path strings (empty when no manifest or no
`"all"` key — `generated_files.get("all", [])`, line 423). -/
def manifestAll (fs : FS) : List String :=
  match BsetOutputData.generated_files fs with
  | none => []
  | some gf => jStrList (jget gf "all" (JValue.arr []))

/-- The `for file in files` loop of `BsetData.clean` (lines 424-429): unlink
each listed path that exists, silently skipping missing ones.  The second
component records the paths actually deleted. -/
def cleanGo : List String → FS → List String → FS × List String
  | [], fs, deleted => (fs, deleted)
  | f :: rest, fs, deleted =>
    if fs.pathExists f then cleanGo rest (fs.erase f) (deleted ++ [f])
    else cleanGo rest fs deleted

/-- Model of `BsetData.clean` (lines 408-432): read `generated_files.json`; if absent,
do nothing; otherwise unlink every listed file that exists. -/
def clean (fs : FS) : FS × List String :=
  match BsetOutputData.generated_files fs with
  | none => (fs, [])
  | some gf => cleanGo (jStrList (jget gf "all" (JValue.arr []))) fs []

/-- The merge loop of `BsetData._update_generated_files` (lines 727-730):
append each relative path not yet present to the `"all"` list (Python `in` on
a list of strings), tracking whether anything changed. -/
def registerGo : List JValue → Bool → List String → List JValue × Bool
  | cur, changed, [] => (cur, changed)
  | cur, changed, r :: rest =>
    if cur.any (fun x => jIsStr x r) then registerGo cur changed rest
    else registerGo (cur ++ [JValue.str r]) true rest

/-- Model of `BsetData._update_generated_files` (lines 720-738).  The caller passes
absolute paths below `bset_dir`; `relative_to` strips the directory, so the
model takes the relative path strings directly.  When nothing changed, no
write happens; otherwise the manifest (with its other keys intact) is
persisted via `safe_dump(force=True)`. -/
def update_generated_files (relpaths : List String) (fs : FS) :
    FS × Option String :=
  let gf :=
    match BsetOutputData.generated_files fs with
    | some v => v
    | none => JValue.obj [("all", JValue.arr [])]
  match jlookup gf "all" with
  | none => (fs, some "KeyError: all")
  | some allv =>
    match registerGo (jArr allv) false relpaths with
    | (newAll, changed) =>
      if changed then
        safe_dump (jset gf "all" (JValue.arr newAll)) genFilesPath true fs
      else (fs, none)

/-!
## Compiled-artifact access

`libcasm.clexulator.make_clexulator` / `make_local_clexulator` are excluded
collaborators (spec §1: "the compiler/loader that turns source text into a
callable evaluator object").  Each invocation is modelled as constructing a
fresh opaque handle and bumping a per-process invocation counter.
-/

/-- An opaque loaded evaluator; the token distinguishes separately constructed
handles. -/
structure Handle where
  token : Nat
  deriving DecidableEq, Repr

/-- In-process state: how many times the external compiler/loader has been
invoked by this process. -/
structure ProcState where
  loaderCalls : Nat
  deriving DecidableEq, Repr

/-- External `libcasm.clexulator.make_clexulator` (line 755): one loader
invocation, returning a freshly constructed handle. -/
def externalMakeClexulator (ps : ProcState) : Handle × ProcState :=
  (⟨ps.loaderCalls⟩, ⟨ps.loaderCalls + 1⟩)

/-- External `libcasm.clexulator.make_local_clexulator` (line 784): one loader
invocation constructing the whole ordered family of local handles. -/
def externalMakeLocalClexulator (ps : ProcState) : Handle × ProcState :=
  (⟨ps.loaderCalls⟩, ⟨ps.loaderCalls + 1⟩)

/-- Relative paths of the compiled object/shared-library pair
(`proj.dir.clexulator_o` / `clexulator_so`; names derive from the project name
and basis-set id, line 762-763). -/
def clexulatorOPath : String := "Clexulator.o"

def clexulatorSOPath : String := "Clexulator.so"

/-- Per-equivalent compiled object/shared-library pairs, in equivalent-index
order (lines 789-798). -/
def localObjPaths : Nat → List String
  | 0 => []
  | n + 1 => localObjPaths n ++
      [toString n ++ "/Clexulator.o", toString n ++ "/Clexulator.so"]

/-- Model of `BsetData.make_clexulator` (lines 740-767): `None` when no source path is
recorded; otherwise invoke the external loader and register the compiled
object/library pair in the manifest.  Returns the handle, the process state,
the filesystem, and a raised-exception message (from the manifest write),
if any. -/
def make_clexulator (fs : FS) (ps : ProcState) :
    Option Handle × ProcState × FS × Option String :=
  match BsetOutputData.src_path fs with
  | none => (none, ps, fs, none)
  | some _ =>
    match externalMakeClexulator ps with
    | (h, ps1) =>
      match update_generated_files [clexulatorOPath, clexulatorSOPath] fs with
      | (fs1, some msg) => (none, ps1, fs1, some msg)
      | (fs1, none) => (some h, ps1, fs1, none)

/-- Model of `BsetData.make_local_clexulator` (lines 769-802): `None` when no local
source paths are recorded; otherwise invoke the external loader once for the
whole family and register one object/library pair per equivalent index. -/
def make_local_clexulator (fs : FS) (ps : ProcState) :
    Option Handle × ProcState × FS × Option String :=
  match BsetOutputData.local_src_path fs with
  | none => (none, ps, fs, none)
  | some paths =>
    match externalMakeLocalClexulator ps with
    | (h, ps1) =>
      match update_generated_files (localObjPaths paths.length) fs with
      | (fs1, some msg) => (none, ps1, fs1, some msg)
      | (fs1, none) => (some h, ps1, fs1, none)

/-- The id validation of `BsetData.__init__` (lines 244-252):
`re.match(R"^\w+", id)` — anchored at the start only, it succeeds whenever the
id begins with at least one word character (`[A-Za-z0-9_]`; the claims only
involve ASCII ids).  The constructor raises exactly when this is `false`. -/
def idCheckPasses (id : String) : Bool :=
  match id.data with
  | [] => false
  | c :: _ => c.isAlphanum || c = '_'

/-- A word character, as in the regex class `\w` (ASCII fragment). -/
def isWordChar (c : Char) : Bool := c.isAlphanum || c = '_'

end BsetData

/-!
## Lemmas about `commit`
-/

namespace BsetData

/-- The `writer_params.json` contents written by `commit` (lines 373-376). -/
def writerParamsObj (st : BsetState) : JValue :=
  JValue.obj
    [("version", st.version),
     ("linear_function_indices", st.linear_function_indices)]

theorem commitMeta_ok (st : BsetState) (fs : FS)
    (h3 : fs.pathExists (metaPath ++ ".tmp") = false) :
    (commitMeta st fs).2 = none ∧
    ∀ q, q ≠ metaPath → q ≠ metaPath ++ ".tmp" →
      ((commitMeta st fs).1).lookup q = fs.lookup q := by
  unfold commitMeta
  by_cases hm : jObjLen st.meta > 0
  · rw [if_pos hm, safe_dump_force]
    rcases hsw : safeWrite st.meta metaPath fs with ⟨fs2, e2⟩
    have h2none : e2 = none := by
      rw [← safeWrite_ok_snd st.meta metaPath fs h3, hsw]
    subst h2none
    refine ⟨rfl, fun q hq hqt => ?_⟩
    have hlk := safeWrite_ok_lookup st.meta metaPath fs q h3
    rw [hsw] at hlk
    dsimp only at hlk ⊢
    rw [hlk, if_neg hq, if_neg hqt]
  · rw [if_neg hm]
    by_cases hme : fs.pathExists metaPath = true
    · rw [if_pos hme]
      refine ⟨rfl, fun q hq _ => ?_⟩
      dsimp only
      rw [FS.lookup_erase, if_neg hq]
    · rw [if_neg hme]
      exact ⟨rfl, fun q _ _ => rfl⟩

theorem commit_ok (st : BsetState) (fs : FS) (d : JValue)
    (hcbs : st.clex_basis_specs = BspecsVal.cbs d)
    (hver : jIsStr st.version "v1.basic" = true)
    (hmeta : jIsObj st.meta = true)
    (h1 : fs.pathExists (bspecsPath ++ ".tmp") = false)
    (h2 : fs.pathExists (writerParamsPath ++ ".tmp") = false)
    (h3 : fs.pathExists (metaPath ++ ".tmp") = false) :
    (commit st fs).2 = none ∧
    ∀ q, q ≠ metaPath → q ≠ metaPath ++ ".tmp" →
      ((commit st fs).1).lookup q =
        if q = writerParamsPath then some (writerParamsObj st)
        else if q = writerParamsPath ++ ".tmp" then none
        else if q = bspecsPath then some d
        else if q = bspecsPath ++ ".tmp" then none
        else fs.lookup q := by
  unfold commit
  rw [if_neg (by simp [hcbs, isClexBasisSpecs]), if_neg (by simp [hver]),
    if_neg (by simp [hmeta])]
  unfold commitWrites
  rw [hcbs]
  dsimp only [cbsToDict]
  rw [safe_dump_force]
  rcases hb : safeWrite d bspecsPath fs with ⟨fs1, e1⟩
  have he1 : e1 = none := by
    rw [← safeWrite_ok_snd d bspecsPath fs h1, hb]
  subst he1
  have hlk1 : ∀ q, fs1.lookup q =
      if q = bspecsPath then some d
      else if q = bspecsPath ++ ".tmp" then none
      else fs.lookup q := by
    intro q
    have hlk := safeWrite_ok_lookup d bspecsPath fs q h1
    rw [hb] at hlk
    exact hlk
  have h2' : fs1.pathExists (writerParamsPath ++ ".tmp") = false := by
    unfold FS.pathExists
    rw [hlk1, if_neg (by decide), if_neg (by decide)]
    exact h2
  have h3' : fs1.pathExists (metaPath ++ ".tmp") = false := by
    unfold FS.pathExists
    rw [hlk1, if_neg (by decide), if_neg (by decide)]
    exact h3
  dsimp only
  rw [safe_dump_force]
  rcases hw : safeWrite
      (JValue.obj
        [("version", st.version),
         ("linear_function_indices", st.linear_function_indices)])
      writerParamsPath fs1 with ⟨fs2, e2⟩
  have he2 : e2 = none := by
    rw [← safeWrite_ok_snd (writerParamsObj st) writerParamsPath fs1 h2']
    exact congrArg Prod.snd hw.symm
  subst he2
  have hlk2 : ∀ q, fs2.lookup q =
      if q = writerParamsPath then some (writerParamsObj st)
      else if q = writerParamsPath ++ ".tmp" then none
      else fs1.lookup q := by
    intro q
    have hlk := safeWrite_ok_lookup (writerParamsObj st) writerParamsPath fs1 q h2'
    rw [show safeWrite (writerParamsObj st) writerParamsPath fs1 = (fs2, none) from hw]
      at hlk
    exact hlk
  have h3'' : fs2.pathExists (metaPath ++ ".tmp") = false := by
    unfold FS.pathExists
    rw [hlk2, if_neg (by decide), if_neg (by decide)]
    exact h3'
  dsimp only
  obtain ⟨hcm2, hcm1⟩ := commitMeta_ok st fs2 h3''
  refine ⟨hcm2, fun q hq hqt => ?_⟩
  rw [hcm1 q hq hqt, hlk2, hlk1]

end BsetData

/-!
## Claim theorems: specification store and atomic writer
-/

/-- C1: for every `BsetData` whose `clex_basis_specs` is a valid
`ClexBasisSpecs`, whose `version` is in the supported set, and whose `meta` is
a dict, `commit()` succeeds (given no leftover temporaries, which would make
`commit` raise instead) and a subsequent `load()` reproduces in memory exactly
the same specification payload, version, and `linear_function_indices` as
before the commit, whatever in-memory state the load starts from. -/
theorem commit_then_load_round_trip (st st2 : BsetState) (fs : FS) (d : JValue)
    (hcbs : st.clex_basis_specs = BspecsVal.cbs d)
    (hver : BsetData.jIsStr st.version "v1.basic" = true)
    (hmeta : BsetData.jIsObj st.meta = true)
    (h1 : fs.pathExists (bspecsPath ++ ".tmp") = false)
    (h2 : fs.pathExists (writerParamsPath ++ ".tmp") = false)
    (h3 : fs.pathExists (metaPath ++ ".tmp") = false) :
    (BsetData.commit st fs).2 = none ∧
    (BsetData.load (BsetData.commit st fs).1 st2).clex_basis_specs
      = BspecsVal.cbs d ∧
    (BsetData.load (BsetData.commit st fs).1 st2).version = st.version ∧
    (BsetData.load (BsetData.commit st fs).1 st2).linear_function_indices
      = st.linear_function_indices := by
  obtain ⟨hok, hlk⟩ := BsetData.commit_ok st fs d hcbs hver hmeta h1 h2 h3
  have hb : ((BsetData.commit st fs).1).lookup bspecsPath = some d := by
    rw [hlk bspecsPath (by decide) (by decide), if_neg (by decide),
      if_neg (by decide), if_pos rfl]
  have hw : ((BsetData.commit st fs).1).lookup writerParamsPath
      = some (BsetData.writerParamsObj st) := by
    rw [hlk writerParamsPath (by decide) (by decide), if_pos rfl]
  refine ⟨hok, ?_, ?_, ?_⟩ <;>
    simp [BsetData.load, read_optional, hb, hw, jget, jlookup, assocLookup,
      BsetData.writerParamsObj]

/-- Concrete instances used by witnesses. -/
def stC1 : BsetState :=
  { meta := JValue.obj [("desc", JValue.str "demo basis set")]
    clex_basis_specs :=
      BspecsVal.cbs (JValue.obj [("basis_function_specs", JValue.obj [])])
    version := JValue.str "v1.basic"
    linear_function_indices := JValue.arr [JValue.num 0, JValue.num 2] }

def stEmpty : BsetState :=
  { meta := JValue.obj []
    clex_basis_specs := BspecsVal.isNone
    version := JValue.null
    linear_function_indices := JValue.null }

theorem commit_then_load_round_trip_witness :
    (BsetData.commit stC1 []).2 = none ∧
    (BsetData.load (BsetData.commit stC1 []).1 stEmpty).clex_basis_specs
      = BspecsVal.cbs (JValue.obj [("basis_function_specs", JValue.obj [])]) ∧
    (BsetData.load (BsetData.commit stC1 []).1 stEmpty).version
      = stC1.version ∧
    (BsetData.load (BsetData.commit stC1 []).1 stEmpty).linear_function_indices
      = stC1.linear_function_indices :=
  commit_then_load_round_trip stC1 stEmpty []
    (JValue.obj [("basis_function_specs", JValue.obj [])])
    rfl rfl rfl rfl rfl rfl

/-- C2: whenever the atomic writer is called with overwriting permitted
(`force=True`) but the sibling temporary `path + ".tmp"` already exists, the
call raises and the filesystem — in particular the pre-existing target file,
if any — is left exactly as it was; the leftover temporary is never silently
overwritten. -/
theorem safe_dump_refuses_leftover_tmp (data : JValue) (path : String) (fs : FS)
    (h : fs.pathExists (path ++ ".tmp") = true) :
    safe_dump data path true fs
      = (fs, some ("Error: " ++ (path ++ ".tmp") ++ " already exists")) := by
  rw [safe_dump_force]
  exact safeWrite_tmp_exists data path fs h

def fsC2 : FS := [("a.json.tmp", JValue.null), ("a.json", JValue.str "orig")]

theorem safe_dump_refuses_leftover_tmp_witness :
    safe_dump (JValue.str "new") "a.json" true fsC2
      = (fsC2, some ("Error: " ++ ("a.json" ++ ".tmp") ++ " already exists")) :=
  safe_dump_refuses_leftover_tmp (JValue.str "new") "a.json" fsC2 (by decide)

/-- C3 (code bug): with a `None` specification payload, `commit()` does not
delete `bspecs.json` and `writer_params.json`: the `isinstance` validation at
the top of `commit` raises `TypeError` first (its own docstring, line 340,
says "If an attribute is None, the corresponding file will be deleted"), so
both files survive untouched and the deletion branch (lines 384-390) is
unreachable. -/
theorem commit_none_payload_raises :
    BsetData.commit
        { meta := JValue.obj []
          clex_basis_specs := BspecsVal.isNone
          version := JValue.str "v1.basic"
          linear_function_indices := JValue.null }
        [(bspecsPath, JValue.obj []), (writerParamsPath, JValue.obj [])]
      = ([(bspecsPath, JValue.obj []), (writerParamsPath, JValue.obj [])],
         some BsetData.CommitErr.notClexBasisSpecs) := by
  rfl

/-- C7: whenever `commit()` fails its validation (payload not a
`ClexBasisSpecs`, version outside the supported set, or metadata not a dict),
the `TypeError` is raised before any file is written or deleted: the resulting
filesystem is exactly the input filesystem. -/
theorem commit_validation_error_before_disk (st : BsetState) (fs : FS)
    (h : isClexBasisSpecs st.clex_basis_specs = false ∨
         BsetData.jIsStr st.version "v1.basic" = false ∨
         BsetData.jIsObj st.meta = false) :
    ∃ e, BsetData.commit st fs = (fs, some e) ∧
      BsetData.CommitErr.isValidationErr e = true := by
  unfold BsetData.commit
  by_cases h1 : isClexBasisSpecs st.clex_basis_specs = true
  · rw [if_neg (by simp [h1])]
    by_cases h2 : BsetData.jIsStr st.version "v1.basic" = true
    · rw [if_neg (by simp [h2])]
      by_cases h3 : BsetData.jIsObj st.meta = true
      · rcases h with h | h | h <;> simp_all
      · rw [if_pos (by simpa using h3)]
        exact ⟨_, rfl, rfl⟩
    · rw [if_pos (by simpa using h2)]
      exact ⟨_, rfl, rfl⟩
  · rw [if_pos (by simpa using h1)]
    exact ⟨_, rfl, rfl⟩

def stC7 : BsetState :=
  { meta := JValue.obj []
    clex_basis_specs :=
      BspecsVal.cbs (JValue.obj [("basis_function_specs", JValue.obj [])])
    version := JValue.str "v2.unsupported"
    linear_function_indices := JValue.null }

theorem commit_validation_error_before_disk_witness :
    ∃ e, BsetData.commit stC7 [(bspecsPath, JValue.str "old")]
        = ([(bspecsPath, JValue.str "old")], some e) ∧
      BsetData.CommitErr.isValidationErr e = true :=
  commit_validation_error_before_disk stC7 [(bspecsPath, JValue.str "old")]
    (Or.inr (Or.inl rfl))

/-- C9 (code bug): the id validation of `BsetData.__init__` uses
`re.match(R"^\w+", id)`, which only requires the id to *start* with a word
character; contrary to its own error message ("Must consist alphanumeric
characters and underscores only"), the id `"abc!"` — which contains the
non-word character `'!'` — is accepted without error. -/
theorem init_id_check_accepts_nonword_id :
    BsetData.idCheckPasses "abc!" = true ∧
    '!' ∈ "abc!".data ∧ BsetData.isWordChar '!' = false := by
  refine ⟨rfl, by decide, rfl⟩

/-- C10: reading the `equivalents_info` property always raises
`AttributeError` — its getter assigns to the setter-less property itself — and
therefore never returns the contents of `equivalents_info.json`. -/
theorem equivalents_info_always_raises (fs : FS) :
    BsetOutputData.equivalents_info fs
      = Except.error BsetOutputData.PyErr.attributeError := rfl

def fsC10 : FS :=
  [(equivInfoPath, JValue.obj [("equivalents_generating_ops", JValue.arr [])])]

theorem equivalents_info_always_raises_witness :
    BsetOutputData.equivalents_info fsC10
      = Except.error BsetOutputData.PyErr.attributeError :=
  equivalents_info_always_raises fsC10

/-!
## Claim theorems: `load` with a missing payload (C4)
-/

/-- C4 counterexample: the claim says that after `load()` with `bspecs.json`
absent, `version` is `None` regardless of `writer_params.json`; but on an
empty directory `load` leaves `version = "v1.basic"` (the
`data.get("version", "v1.basic")` default applied after the clearing branch),
which is not `None`. -/
theorem load_missing_bspecs_version_not_none :
    (BsetData.load [] stEmpty).clex_basis_specs = BspecsVal.isNone ∧
    (BsetData.load [] stEmpty).version = JValue.str "v1.basic" ∧
    (BsetData.load [] stEmpty).version ≠ JValue.null :=
  ⟨rfl, rfl, fun h => JValue.noConfusion h⟩

/-- C4 (amended): after `load()` with `bspecs.json` absent, the in-memory
specification is cleared (`clex_basis_specs = None`), but `version` and
`linear_function_indices` are then re-read from `writer_params.json`: when that
file is also absent they become the default `"v1.basic"` and `None`; when it
exists they take its `"version"` (default `"v1.basic"`) and
`"linear_function_indices"` (default `None`) entries — so they are *not*
unconditionally cleared to `None`. -/
theorem load_missing_bspecs_spec (fs : FS) (st : BsetState)
    (h : fs.lookup bspecsPath = none) :
    (BsetData.load fs st).clex_basis_specs = BspecsVal.isNone ∧
    (fs.lookup writerParamsPath = none →
      (BsetData.load fs st).version = JValue.str "v1.basic" ∧
      (BsetData.load fs st).linear_function_indices = JValue.null) ∧
    (∀ wp, fs.lookup writerParamsPath = some wp →
      (BsetData.load fs st).version = jget wp "version" (JValue.str "v1.basic") ∧
      (BsetData.load fs st).linear_function_indices
        = jget wp "linear_function_indices" JValue.null) := by
  refine ⟨?_, fun hw => ?_, fun wp hw => ?_⟩
  · simp [BsetData.load, read_optional, h]
  · constructor <;>
      simp [BsetData.load, read_optional, h, hw, jget, jlookup, assocLookup]
  · constructor <;>
      simp [BsetData.load, read_optional, h, hw, jget, jlookup, assocLookup]

def fsC4 : FS :=
  [(writerParamsPath,
    JValue.obj [("linear_function_indices", JValue.arr [JValue.num 0])])]

theorem load_missing_bspecs_spec_witness :
    (BsetData.load fsC4 stEmpty).clex_basis_specs = BspecsVal.isNone ∧
    (BsetData.load fsC4 stEmpty).version
      = jget (JValue.obj
          [("linear_function_indices", JValue.arr [JValue.num 0])])
          "version" (JValue.str "v1.basic") ∧
    (BsetData.load fsC4 stEmpty).linear_function_indices
      = jget (JValue.obj
          [("linear_function_indices", JValue.arr [JValue.num 0])])
          "linear_function_indices" JValue.null :=
  ⟨(load_missing_bspecs_spec fsC4 stEmpty rfl).1,
   ((load_missing_bspecs_spec fsC4 stEmpty rfl).2.2 _ rfl).1,
   ((load_missing_bspecs_spec fsC4 stEmpty rfl).2.2 _ rfl).2⟩

/-!
## Claim theorems: `clean` (C6)
-/

namespace BsetData

theorem pathExists_false_lookup (fs : FS) (p : String)
    (h : fs.pathExists p = false) : fs.lookup p = none := by
  unfold FS.pathExists at h
  cases hl : fs.lookup p with
  | none => rfl
  | some v => rw [hl] at h; simp at h

theorem cleanGo_lookup : ∀ (files : List String) (fs : FS) (acc : List String)
    (q : String),
    ((cleanGo files fs acc).1).lookup q =
      if q ∈ files then none else fs.lookup q := by
  intro files
  induction files with
  | nil =>
    intro fs acc q
    simp [cleanGo]
  | cons f rest ih =>
    intro fs acc q
    unfold cleanGo
    by_cases hex : fs.pathExists f = true
    · rw [if_pos hex, ih]
      by_cases hq : q ∈ rest
      · rw [if_pos hq, if_pos (List.mem_cons_of_mem f hq)]
      · rw [if_neg hq, FS.lookup_erase]
        by_cases hqf : q = f
        · rw [if_pos hqf, if_pos (by rw [hqf]; exact List.mem_cons_self f rest)]
        · rw [if_neg hqf, if_neg (by simp [hqf, hq])]
    · rw [if_neg hex, ih]
      by_cases hq : q ∈ rest
      · rw [if_pos hq, if_pos (List.mem_cons_of_mem f hq)]
      · by_cases hqf : q = f
        · rw [if_neg hq, if_pos (by rw [hqf]; exact List.mem_cons_self f rest),
            hqf, pathExists_false_lookup fs f (by simpa using hex)]
        · rw [if_neg hq, if_neg (by simp [hqf, hq])]

theorem cleanGo_deleted : ∀ (files : List String) (fs : FS) (acc : List String),
    files.Nodup →
    (cleanGo files fs acc).2 = acc ++ files.filter (fun f => fs.pathExists f) := by
  intro files
  induction files with
  | nil =>
    intro fs acc _
    simp [cleanGo]
  | cons f rest ih =>
    intro fs acc hnd
    have hf : f ∉ rest := (List.nodup_cons.mp hnd).1
    have hr : rest.Nodup := (List.nodup_cons.mp hnd).2
    unfold cleanGo
    by_cases hex : fs.pathExists f = true
    · rw [if_pos hex, ih _ _ hr]
      have hfil : rest.filter (fun g => (fs.erase f).pathExists g)
          = rest.filter (fun g => fs.pathExists g) := by
        apply List.filter_congr
        intro g hg
        have hgf : g ≠ f := fun hh => hf (hh ▸ hg)
        unfold FS.pathExists
        rw [FS.lookup_erase, if_neg hgf]
      rw [hfil, List.filter_cons_of_pos hex]
      simp
    · rw [if_neg hex, ih _ _ hr, List.filter_cons_of_neg (by simpa using hex)]

end BsetData

/-- C6: `clean()` deletes exactly the files listed in the manifest `"all"`
list that still exist on disk: after `clean`, a path is absent iff it was
listed or already absent; listed-but-missing files are silently skipped (they
are not among the deletions); and with no manifest file at all, `clean`
performs zero deletions, changes nothing, and raises no error. -/
theorem clean_deletes_exactly_listed (fs : FS) :
    (fs.lookup genFilesPath = none → BsetData.clean fs = (fs, [])) ∧
    (∀ q, ((BsetData.clean fs).1).lookup q =
      if q ∈ BsetData.manifestAll fs then none else fs.lookup q) ∧
    ((BsetData.manifestAll fs).Nodup →
      (BsetData.clean fs).2
        = (BsetData.manifestAll fs).filter (fun f => fs.pathExists f)) := by
  refine ⟨?_, ?_, ?_⟩
  · intro h
    unfold BsetData.clean BsetOutputData.generated_files
    rw [h]
  · intro q
    unfold BsetData.clean BsetData.manifestAll BsetOutputData.generated_files
    cases hl : fs.lookup genFilesPath with
    | none => simp
    | some gf => exact BsetData.cleanGo_lookup _ fs [] q
  · intro hnd
    unfold BsetData.clean
    unfold BsetData.manifestAll BsetOutputData.generated_files at hnd ⊢
    cases hl : fs.lookup genFilesPath with
    | none => simp
    | some gf =>
      rw [hl] at hnd
      exact BsetData.cleanGo_deleted _ fs [] hnd

def fsC6 : FS :=
  [(genFilesPath,
    JValue.obj [("all", JValue.arr [JValue.str "src.cpp", JValue.str "basis.json"])]),
   ("src.cpp", JValue.str "code")]

theorem clean_deletes_exactly_listed_witness :
    BsetData.clean [] = ([], []) ∧
    (BsetData.clean fsC6).2
      = (BsetData.manifestAll fsC6).filter (fun f => fsC6.pathExists f) :=
  ⟨(clean_deletes_exactly_listed []).1 rfl,
   (clean_deletes_exactly_listed fsC6).2.2 (by decide)⟩

/-!
## Claim theorems: generated-file manifest registration (C5)
-/

namespace BsetData

theorem registerGo_append : ∀ (rs : List String) (cur : List JValue) (ch : Bool),
    ∃ t, (registerGo cur ch rs).1 = cur ++ t := by
  intro rs
  induction rs with
  | nil =>
    intro cur ch
    exact ⟨[], (List.append_nil cur).symm⟩
  | cons r rest ih =>
    intro cur ch
    unfold registerGo
    by_cases hm : cur.any (fun x => jIsStr x r) = true
    · rw [if_pos hm]
      exact ih cur ch
    · rw [if_neg hm]
      obtain ⟨t, ht⟩ := ih (cur ++ [JValue.str r]) true
      exact ⟨[JValue.str r] ++ t, by rw [ht, List.append_assoc]⟩

theorem registerGo_all_mem : ∀ (rs : List String) (cur : List JValue) (ch : Bool),
    (∀ r ∈ rs, cur.any (fun x => jIsStr x r) = true) →
    registerGo cur ch rs = (cur, ch) := by
  intro rs
  induction rs with
  | nil =>
    intro cur ch _
    rfl
  | cons r rest ih =>
    intro cur ch h
    unfold registerGo
    rw [if_pos (h r (List.mem_cons_self r rest))]
    exact ih cur ch (fun r' hr' => h r' (List.mem_cons_of_mem r hr'))

theorem registerGo_true_snd : ∀ (rs : List String) (cur : List JValue),
    (registerGo cur true rs).2 = true := by
  intro rs
  induction rs with
  | nil =>
    intro cur
    rfl
  | cons r rest ih =>
    intro cur
    unfold registerGo
    by_cases hm : cur.any (fun x => jIsStr x r) = true
    · rw [if_pos hm]
      exact ih cur
    · rw [if_neg hm]
      exact ih (cur ++ [JValue.str r])

theorem registerGo_snd_false : ∀ (rs : List String) (cur : List JValue),
    (registerGo cur false rs).2 = false → (registerGo cur false rs).1 = cur := by
  intro rs
  induction rs with
  | nil =>
    intro cur _
    rfl
  | cons r rest ih =>
    intro cur h
    unfold registerGo at h ⊢
    by_cases hm : cur.any (fun x => jIsStr x r) = true
    · rw [if_pos hm] at h ⊢
      exact ih cur h
    · rw [if_neg hm] at h
      rw [registerGo_true_snd rest (cur ++ [JValue.str r])] at h
      exact absurd h (by simp)

theorem jIsStr_self (r : String) : jIsStr (JValue.str r) r = true := by
  simp [jIsStr]

theorem str_mem_of_any {cur : List JValue} {r : String}
    (h : cur.any (fun x => jIsStr x r) = true) : JValue.str r ∈ cur := by
  obtain ⟨x, hx, hxr⟩ := List.any_eq_true.mp h
  cases x with
  | str t =>
    have : t = r := by simpa [jIsStr] using hxr
    rw [← this]
    exact hx
  | null => simp [jIsStr] at hxr
  | bool b => simp [jIsStr] at hxr
  | num n => simp [jIsStr] at hxr
  | arr xs => simp [jIsStr] at hxr
  | obj kvs => simp [jIsStr] at hxr

theorem str_not_mem_of_not_any {cur : List JValue} {r : String}
    (h : cur.any (fun x => jIsStr x r) = false) : JValue.str r ∉ cur := by
  intro hmem
  have : cur.any (fun x => jIsStr x r) = true :=
    List.any_eq_true.mpr ⟨JValue.str r, hmem, jIsStr_self r⟩
  rw [h] at this
  exact absurd this (by simp)

theorem registerGo_nodup : ∀ (rs : List String) (cur : List JValue) (ch : Bool),
    cur.Nodup → (registerGo cur ch rs).1.Nodup := by
  intro rs
  induction rs with
  | nil =>
    intro cur ch h
    exact h
  | cons r rest ih =>
    intro cur ch h
    unfold registerGo
    by_cases hm : cur.any (fun x => jIsStr x r) = true
    · rw [if_pos hm]
      exact ih cur ch h
    · rw [if_neg hm]
      refine ih (cur ++ [JValue.str r]) true ?_
      rw [List.nodup_append]
      refine ⟨h, List.nodup_singleton _, ?_⟩
      intro a ha hb
      rw [List.mem_singleton] at hb
      subst hb
      exact str_not_mem_of_not_any (by simpa using hm) ha

theorem registerGo_mem : ∀ (rs : List String) (cur : List JValue) (ch : Bool)
    (x : JValue),
    x ∈ (registerGo cur ch rs).1 ↔
      x ∈ cur ∨ ∃ r, r ∈ rs ∧ x = JValue.str r := by
  intro rs
  induction rs with
  | nil =>
    intro cur ch x
    simp [registerGo]
  | cons r rest ih =>
    intro cur ch x
    unfold registerGo
    by_cases hm : cur.any (fun x => jIsStr x r) = true
    · rw [if_pos hm, ih]
      have hrc : JValue.str r ∈ cur := str_mem_of_any hm
      constructor
      · rintro (hx | ⟨r', hr', hxr'⟩)
        · exact Or.inl hx
        · exact Or.inr ⟨r', List.mem_cons_of_mem r hr', hxr'⟩
      · rintro (hx | ⟨r', hr', hxr'⟩)
        · exact Or.inl hx
        · rcases List.mem_cons.mp hr' with hr | hr
          · subst hr
            subst hxr'
            exact Or.inl hrc
          · exact Or.inr ⟨r', hr, hxr'⟩
    · rw [if_neg hm, ih]
      constructor
      · rintro (hx | ⟨r', hr', hxr'⟩)
        · rcases List.mem_append.mp hx with hx | hx
          · exact Or.inl hx
          · rw [List.mem_singleton] at hx
            exact Or.inr ⟨r, List.mem_cons_self r rest, hx⟩
        · exact Or.inr ⟨r', List.mem_cons_of_mem r hr', hxr'⟩
      · rintro (hx | ⟨r', hr', hxr'⟩)
        · exact Or.inl (List.mem_append.mpr (Or.inl hx))
        · rcases List.mem_cons.mp hr' with hr | hr
          · subst hr
            exact Or.inl (List.mem_append.mpr (Or.inr (by simp [hxr'])))
          · exact Or.inr ⟨r', hr, hxr'⟩

end BsetData

/-- C5: registering generated-file paths that are all already recorded in the
manifest `"all"` list performs no write and leaves everything unchanged;
registering new paths appends them after the existing entries (the old list is
a prefix of the new one), in order of first registration, without introducing
duplicates, and the resulting `"all"` list holds exactly the old entries plus
the newly registered ones; when something was appended (and no leftover
manifest temporary blocks the write) the updated manifest is persisted with
its other keys intact. -/
theorem update_generated_files_spec (fs : FS) (gf : JValue)
    (allxs : List JValue) (relpaths : List String)
    (hgf : fs.lookup genFilesPath = some gf)
    (hall : jlookup gf "all" = some (JValue.arr allxs)) :
    ((∀ r ∈ relpaths, allxs.any (fun x => BsetData.jIsStr x r) = true) →
      BsetData.update_generated_files relpaths fs = (fs, none)) ∧
    (∃ extra, (BsetData.registerGo allxs false relpaths).1 = allxs ++ extra) ∧
    (allxs.Nodup → (BsetData.registerGo allxs false relpaths).1.Nodup) ∧
    (∀ x, x ∈ (BsetData.registerGo allxs false relpaths).1 ↔
      x ∈ allxs ∨ ∃ r, r ∈ relpaths ∧ x = JValue.str r) ∧
    ((BsetData.registerGo allxs false relpaths).1 ≠ allxs →
      fs.pathExists (genFilesPath ++ ".tmp") = false →
      (BsetData.update_generated_files relpaths fs).2 = none ∧
      ((BsetData.update_generated_files relpaths fs).1).lookup genFilesPath
        = some (jset gf "all"
            (JValue.arr (BsetData.registerGo allxs false relpaths).1))) := by
  have hunf : BsetData.update_generated_files relpaths fs =
      (match BsetData.registerGo allxs false relpaths with
       | (newAll, changed) =>
         if changed then
           safe_dump (jset gf "all" (JValue.arr newAll)) genFilesPath true fs
         else (fs, none)) := by
    unfold BsetData.update_generated_files BsetOutputData.generated_files
    rw [hgf]
    dsimp only
    rw [hall]
    dsimp only [jArr]
  refine ⟨?_, BsetData.registerGo_append relpaths allxs false,
    fun h => BsetData.registerGo_nodup relpaths allxs false h,
    BsetData.registerGo_mem relpaths allxs false, ?_⟩
  · intro hin
    rw [hunf, BsetData.registerGo_all_mem relpaths allxs false hin]
    rfl
  · intro hne htmp
    rcases hreg : BsetData.registerGo allxs false relpaths with ⟨newAll, changed⟩
    have hch : changed = true := by
      cases hc : changed with
      | true => rfl
      | false =>
        have h1 := BsetData.registerGo_snd_false relpaths allxs
        rw [hreg, hc] at h1
        have h2 : newAll = allxs := h1 rfl
        rw [hreg] at hne
        exact absurd h2 hne
    subst hch
    rw [hreg] at hunf
    rw [hunf]
    dsimp only
    rw [safe_dump_force, if_pos rfl]
    constructor
    · exact safeWrite_ok_snd _ genFilesPath fs htmp
    · rw [safeWrite_ok_lookup _ genFilesPath fs genFilesPath htmp, if_pos rfl]

def gfC5 : JValue :=
  JValue.obj
    [("all", JValue.arr [JValue.str "src.cpp"]),
     ("src_path", JValue.str "src.cpp")]

def fsC5 : FS := [(genFilesPath, gfC5)]

theorem update_generated_files_spec_witness :
    BsetData.update_generated_files ["src.cpp"] fsC5 = (fsC5, none) ∧
    (∃ extra, (BsetData.registerGo [JValue.str "src.cpp"] false
        ["src.cpp", "basis.json"]).1 = [JValue.str "src.cpp"] ++ extra) :=
  ⟨(update_generated_files_spec fsC5 gfC5 [JValue.str "src.cpp"] ["src.cpp"]
      rfl rfl).1 (by decide),
   (update_generated_files_spec fsC5 gfC5 [JValue.str "src.cpp"]
      ["src.cpp", "basis.json"] rfl rfl).2.1⟩

/-!
## Claim theorems: compile-on-access (C8)
-/

def fsC8 : FS :=
  [(genFilesPath,
    JValue.obj
      [("all", JValue.arr [JValue.str "src.cpp"]),
       ("src_path", JValue.str "src.cpp")])]

/-- First `make_clexulator()` call after generation without compilation. -/
def c8Run1 : Option BsetData.Handle × BsetData.ProcState × FS × Option String :=
  BsetData.make_clexulator fsC8 ⟨0⟩

/-- Second `make_clexulator()` call in the same process, on the state left by
the first call. -/
def c8Run2 : Option BsetData.Handle × BsetData.ProcState × FS × Option String :=
  BsetData.make_clexulator c8Run1.2.2.1 c8Run1.2.1

/-- C8 counterexample: the claim says the first request invokes the external
compiler/loader once and caches the handle so a second request re-invokes
nothing and returns the cached handle.  On the code, the first call makes one
loader invocation, but the second call makes a second loader invocation
(`loaderCalls` goes from 1 to 2, not staying at 1) and returns a distinct,
newly constructed handle: `BsetData.make_clexulator` stores no handle
anywhere. -/
theorem make_clexulator_no_cache_counterexample :
    c8Run1.2.1.loaderCalls = 1 ∧
    c8Run2.2.1.loaderCalls = 2 ∧
    (2 : Nat) ≠ 1 ∧
    c8Run1.1 = some ⟨0⟩ ∧
    c8Run2.1 = some ⟨1⟩ ∧
    c8Run2.1 ≠ c8Run1.1 := by
  refine ⟨rfl, rfl, by decide, rfl, rfl, by decide⟩

/-- C8 (amended): `make_clexulator` / `make_local_clexulator` with a recorded
source path invoke the external compiler/loader exactly once *per call* —
there is no in-process handle cache at this layer, so each request re-invokes
the loader (idempotence of actual recompilation is delegated to the external
loader, spec §4.5). -/
theorem make_methods_invoke_loader_each_call (fs : FS) (ps : BsetData.ProcState) :
    ((BsetOutputData.src_path fs).isSome = true →
      ((BsetData.make_clexulator fs ps).2.1).loaderCalls = ps.loaderCalls + 1) ∧
    ((BsetOutputData.local_src_path fs).isSome = true →
      ((BsetData.make_local_clexulator fs ps).2.1).loaderCalls
        = ps.loaderCalls + 1) := by
  constructor
  · intro h
    unfold BsetData.make_clexulator
    cases hsp : BsetOutputData.src_path fs with
    | none => rw [hsp] at h; simp at h
    | some s =>
      dsimp only [BsetData.externalMakeClexulator]
      rcases hu : BsetData.update_generated_files
          [BsetData.clexulatorOPath, BsetData.clexulatorSOPath] fs with ⟨fs1, e1⟩
      cases e1 <;> rfl
  · intro h
    unfold BsetData.make_local_clexulator
    cases hsp : BsetOutputData.local_src_path fs with
    | none => rw [hsp] at h; simp at h
    | some paths =>
      dsimp only [BsetData.externalMakeLocalClexulator]
      rcases hu : BsetData.update_generated_files
          (BsetData.localObjPaths paths.length) fs with ⟨fs1, e1⟩
      cases e1 <;> rfl

def fsC8L : FS :=
  [(genFilesPath,
    JValue.obj
      [("all", JValue.arr []),
       ("src_path", JValue.str "src.cpp"),
       ("local_src_path", JValue.arr [JValue.str "0/src.cpp"])])]

theorem make_methods_invoke_loader_each_call_witness :
    ((BsetData.make_clexulator fsC8L ⟨5⟩).2.1).loaderCalls = 5 + 1 ∧
    ((BsetData.make_local_clexulator fsC8L ⟨5⟩).2.1).loaderCalls = 5 + 1 :=
  ⟨(make_methods_invoke_loader_each_call fsC8L ⟨5⟩).1 rfl,
   (make_methods_invoke_loader_each_call fsC8L ⟨5⟩).2 rfl⟩
